import Mathlib

/-!
Verification of the OthelloAI `ai-server` (Rust) against its specification.

The Rust sources are shallowly embedded: pure functions become Lean
functions, in-place mutation becomes explicit state passing, and every
fallible fragment returns a `PResult` distinguishing a normal value, a
Rust `Err` value and a panic (`unwrap` on an error, a failed `assert!`,
or an out-of-bounds slice index).  Machine integers: the `i32` arithmetic
of the evaluation functions is modelled with `Int` (all quantities involved
are bounded far below `2^31`, so two's-complement wrap-around is
unreachable); the one place where `usize` wrap-around is reachable
(`Game::parse`'s turn computation) is modelled explicitly modulo `2^64`.
-/

namespace OthelloAI

/-- Error type of `errors.rs` (the module itself is not among the given
sources; the two variants and their `String` payloads are fixed by every
construction and match in `board.rs`, `game.rs`, `bot.rs`). -/
inductive Error where
  | invalidArgument (msg : String)
  | parseError (msg : String)
deriving DecidableEq

/-- Outcome of running a fragment of Rust code: a normal value, an `Err`
value of `Result`, or a panic (failed `assert!`, `unwrap` on `Err`/`None`,
or an out-of-bounds array index).  A panic aborts the whole computation,
so it propagates through every caller. -/
inductive PResult (α : Type) where
  | ok (val : α)
  | err (e : Error)
  | panicked
deriving DecidableEq

/-- Mapping over the normal value of a `PResult`. -/
def PResult.map {α β : Type} (f : α → β) : PResult α → PResult β
  | .ok a => .ok (f a)
  | .err e => .err e
  | .panicked => .panicked

/-- `BOARD_SIZE` from `board.rs`. -/
def BOARD_SIZE : Nat := 8

def DARK_CHAR : Char := 'D'
def LIGHT_CHAR : Char := 'L'
def EMPTY_CHAR : Char := 'E'

/-- The eight compass directions (`board.rs::Direction`). -/
inductive Direction where
  | North | NorthEast | East | SouthEast | South | SouthWest | West | NorthWest
deriving DecidableEq

/-- `Direction::all`, in the source's order. -/
def Direction.all : List Direction :=
  [.North, .NorthEast, .East, .SouthEast, .South, .SouthWest, .West, .NorthWest]

/-- `board.rs::Disk`. -/
inductive Disk where
  | Dark
  | Light
deriving DecidableEq

instance : Inhabited Disk := ⟨.Dark⟩

/-- `Disk::parse`. -/
def Disk.parse (ch : Char) : PResult Disk :=
  if ch = DARK_CHAR then .ok .Dark
  else if ch = LIGHT_CHAR then .ok .Light
  else .err (.parseError ("Invalid character to parse into a disk: " ++ ch.toString))

/-- `board.rs::Position` (fields are `usize`). -/
structure Position where
  row : Nat
  col : Nat
deriving DecidableEq

instance : Inhabited Position := ⟨⟨0, 0⟩⟩

/-- Splitting a character list at every occurrence of `sep`, keeping empty
pieces — the behaviour of Rust's `str::split` with a single-char pattern. -/
def splitOnChar (sep : Char) : List Char → List (List Char)
  | [] => [[]]
  | c :: cs =>
    if c = sep then [] :: splitOnChar sep cs
    else match splitOnChar sep cs with
      | [] => [[c]]
      | piece :: rest => (c :: piece) :: rest

/-- Rust's `str::parse::<usize>`: an optional leading `'+'`, then a
non-empty run of ASCII digits whose value fits in 64 bits. -/
def parseUsizeChars (cs : List Char) : Option Nat :=
  let ds := match cs with
    | '+' :: rest => rest
    | _ => cs
  if ds ≠ [] ∧ ds.all Char.isDigit then
    let n := ds.foldl (fun a c => 10 * a + (c.toNat - 48)) 0
    if n < 2 ^ 64 then some n else none
  else none

/-- `Position::parse`: split on `','`, parse each piece as `usize`,
drop the pieces that fail to parse (`filter(is_ok)` in the source!),
and succeed exactly when two pieces survive. -/
def Position.parse (s : String) : PResult Position :=
  match (splitOnChar ',' s.toList).filterMap parseUsizeChars with
  | [row, col] => .ok ⟨row, col⟩
  | _ => .err (.parseError ("Invalid string to parse into a position: " ++ s))

/-- `Position::is_inbound`. -/
def Position.is_inbound (p : Position) : Prop :=
  p.row < BOARD_SIZE ∧ p.col < BOARD_SIZE

instance (p : Position) : Decidable p.is_inbound := by
  unfold Position.is_inbound; infer_instance

/-- `POSITION_WEIGHTS` from `board.rs`. -/
def POSITION_WEIGHTS : List (List Int) :=
  [[100, -10,  30,  20,  20,  30, -10, 100],
   [-10, -10,   1,   2,   2,   1, -10, -10],
   [ 30,   1,  10,   6,   6,  10,   1,  30],
   [ 20,   2,   6,   0,   0,   6,   2,  20],
   [ 20,   2,   6,   0,   0,   6,   2,  20],
   [ 30,   1,  10,   6,   6,  10,   1,  30],
   [-10, -10,   1,   2,   2,   1, -10, -10],
   [100, -10,  30,  20,  20,  30, -10, 100]]

/-- `Position::weight`.  The source indexes the table directly and would
panic out of bounds; every call site reaches it with an in-bounds position,
so the `getD` default is never consulted. -/
def Position.weight (p : Position) : Int :=
  (POSITION_WEIGHTS.getD p.row []).getD p.col 0

/-- `Position::all`: every cell of the board, row-major. -/
def Position.all : List Position :=
  ((List.range BOARD_SIZE).map
    (fun i => (List.range BOARD_SIZE).map (fun j => Position.mk i j))).flatten

/-- Display form `"<row>,<col>"` of a position. -/
def Position.display (p : Position) : String :=
  toString p.row ++ "," ++ toString p.col

/-- `board.rs::Board`: an 8×8 grid of optional disks. -/
structure Board where
  grid : Fin BOARD_SIZE → Fin BOARD_SIZE → Option Disk

instance : DecidableEq Board := fun a b =>
  decidable_of_iff (a.grid = b.grid) (by cases a; cases b; simp)

/-- `Default` for `Board` (derived in the source): the all-empty grid. -/
instance : Inhabited Board := ⟨⟨fun _ _ => none⟩⟩

/-- Overwriting one cell of the grid. -/
def Board.set (b : Board) (i j : Fin BOARD_SIZE) (d : Option Disk) : Board :=
  ⟨fun r c => if r = i ∧ c = j then d else b.grid r c⟩

/-- `Board::new`: empty except the four central cells. -/
def Board.new : Board :=
  let mid : Nat := BOARD_SIZE / 2 - 1
  ((((default : Board).set ⟨mid, by decide⟩ ⟨mid, by decide⟩ (some .Dark)).set
      ⟨mid + 1, by decide⟩ ⟨mid, by decide⟩ (some .Light)).set
      ⟨mid, by decide⟩ ⟨mid + 1, by decide⟩ (some .Light)).set
      ⟨mid + 1, by decide⟩ ⟨mid + 1, by decide⟩ (some .Dark)

/-- `Board::disk`: the cell at a position.  The source indexes
`grid[pos.row][pos.col]` and would panic out of bounds; every call site in
the embedded code reaches it with an in-bounds position (the out-of-bounds
panic of the raw indexing is modelled at the call sites that could be
reached with an arbitrary position, namely `place` and `flip`). -/
def Board.disk (b : Board) (pos : Position) : Option Disk :=
  if h : pos.row < BOARD_SIZE ∧ pos.col < BOARD_SIZE then
    b.grid ⟨pos.row, h.1⟩ ⟨pos.col, h.2⟩
  else none

/-- `Board::place`: occupies an empty cell, `Err(InvalidArgument)` if the
cell is occupied; indexing an out-of-bounds position panics. -/
def Board.place (b : Board) (disk : Disk) (pos : Position) : PResult Board :=
  if h : pos.row < BOARD_SIZE ∧ pos.col < BOARD_SIZE then
    if (b.disk pos).isSome then
      .err (.invalidArgument ("Given position is not empty to place a disk: " ++ pos.display))
    else
      .ok (b.set ⟨pos.row, h.1⟩ ⟨pos.col, h.2⟩ (some disk))
  else .panicked

/-- `Board::flip`: toggles the colour of an occupied cell; `assert!` that
the position is in-bounds, `Err(InvalidArgument)` if the cell is empty. -/
def Board.flip (b : Board) (pos : Position) : PResult Board :=
  if h : pos.row < BOARD_SIZE ∧ pos.col < BOARD_SIZE then
    match b.disk pos with
    | none => .err (.invalidArgument ("Board is empty at " ++ pos.display))
    | some disk =>
      .ok (b.set ⟨pos.row, h.1⟩ ⟨pos.col, h.2⟩
        (some (if disk = .Dark then .Light else .Dark)))
  else .panicked

/-- `Board::positions`: every position holding the given disk, row-major
(the source flattens the grid, enumerates, filters and divides the flat
index by `BOARD_SIZE`). -/
def Board.positions (b : Board) (disk : Disk) : List Position :=
  (List.range (BOARD_SIZE * BOARD_SIZE)).filterMap (fun k =>
    let p := Position.mk (k / BOARD_SIZE) (k % BOARD_SIZE)
    if b.disk p = some disk then some p else none)

/-- `Board::neighbour`: one step in a compass direction, `none` when the
step leaves the board.  The source computes in `i32` and casts back to
`usize`; a negative coordinate wraps to a huge `usize` and fails the bound
check, which is exactly the `none` branch here.  (In the source this is a
method of `Board` that reads no board state; the `assert!(pos.is_inbound())`
holds at every call site, all of which walk from in-bounds positions.) -/
def Board.neighbour (pos : Position) (dir : Direction) : Option Position :=
  let offset : Int × Int := match dir with
    | .North => (-1, 0)
    | .NorthEast => (-1, 1)
    | .East => (0, 1)
    | .SouthEast => (1, 1)
    | .South => (1, 0)
    | .SouthWest => (1, -1)
    | .West => (0, -1)
    | .NorthWest => (-1, -1)
  let r : Int := (pos.row : Int) + offset.1
  let c : Int := (pos.col : Int) + offset.2
  if 0 ≤ r ∧ r < BOARD_SIZE ∧ 0 ≤ c ∧ c < BOARD_SIZE then
    some ⟨r.toNat, c.toNat⟩
  else none

/-- Rust's `str::lines`, on the character list of the input: split on
`'\n'`, strip one `'\r'` at the end of every terminated line, and drop
the final piece when it is empty (a trailing newline produces no extra
line). -/
def rustLinesAux : List Char → List Char → List (List Char)
  | [], cur => if cur.isEmpty then [] else [cur.reverse]
  | x :: xs, cur =>
    if x = '\n' then
      (match cur with
        | '\r' :: rest => rest.reverse
        | _ => cur.reverse) :: rustLinesAux xs []
    else rustLinesAux xs (x :: cur)

def rustLines (s : String) : List (List Char) :=
  rustLinesAux s.toList []

/-- One line of `Board::parse`: write the characters of `cs` into row `i`
starting at column `j`.  The source computes the disk of the character
first (`'E'` ↦ empty, otherwise `Disk::parse` with `?`), then assigns
`board.grid[i][j]`, which panics when `i` or `j` is out of bounds. -/
def Board.parseLine (b : Board) (i j : Nat) : List Char → PResult Board
  | [] => .ok b
  | ch :: rest =>
    match (if ch = EMPTY_CHAR then .ok none else (Disk.parse ch).map some :
        PResult (Option Disk)) with
    | .ok disk =>
      if h : i < BOARD_SIZE ∧ j < BOARD_SIZE then
        Board.parseLine (b.set ⟨i, h.1⟩ ⟨j, h.2⟩ disk) i (j + 1) rest
      else .panicked
    | .err e => .err e
    | .panicked => .panicked

/-- The line loop of `Board::parse`. -/
def Board.parseLines (b : Board) (i : Nat) : List (List Char) → PResult Board
  | [] => .ok b
  | line :: rest =>
    match Board.parseLine b i 0 line with
    | .ok b' => Board.parseLines b' (i + 1) rest
    | .err e => .err e
    | .panicked => .panicked

/-- `Board::parse`: overlay the input's characters onto `Board::new`. -/
def Board.parse (data : String) : PResult Board :=
  Board.parseLines Board.new 0 (rustLines data)

/-- Display character of a disk. -/
def Disk.char : Disk → Char
  | .Dark => DARK_CHAR
  | .Light => LIGHT_CHAR

/-- `Display for Board`: 8 lines of 8 characters.  The source pushes a
`'\n'` after every row and trims the buffer; since every row is non-empty
and its characters are non-whitespace, that equals joining the rows with
`'\n'`. -/
def Board.display (b : Board) : String :=
  String.intercalate "\n"
    ((List.finRange BOARD_SIZE).map (fun i =>
      String.mk ((List.finRange BOARD_SIZE).map (fun j =>
        match b.grid i j with
        | none => EMPTY_CHAR
        | some disk => disk.char))))

/-! ### `game.rs` -/

def BOT_CHAR : Char := 'B'
def HUMAN_CHAR : Char := 'H'

/-- `game.rs::Player`. -/
inductive Player where
  | Bot
  | Human
deriving DecidableEq

instance : Inhabited Player := ⟨.Bot⟩

/-- `Player::parse`. -/
def Player.parse (ch : Char) : PResult Player :=
  if ch = BOT_CHAR then .ok .Bot
  else if ch = HUMAN_CHAR then .ok .Human
  else .err (.parseError ("Invalid character to parse into a player: " ++ ch.toString))

/-- `Player::opponent`. -/
def Player.opponent : Player → Player
  | .Bot => .Human
  | .Human => .Bot

/-- `Player::disk`: Bot plays Light, Human plays Dark. -/
def Player.disk : Player → Disk
  | .Bot => .Light
  | .Human => .Dark

/-- Display character of a player. -/
def Player.char : Player → Char
  | .Bot => BOT_CHAR
  | .Human => HUMAN_CHAR

/-- `game.rs::Action`: a player and a placement. -/
structure Action where
  player : Player
  placement : Position
deriving DecidableEq

instance : Inhabited Action := ⟨⟨default, default⟩⟩

/-- Display form of an action: just its placement. -/
def Action.display (a : Action) : String :=
  a.placement.display

/-- `game.rs::Phase`. -/
inductive Phase where
  | Early
  | Mid
  | End
deriving DecidableEq

instance : Inhabited Phase := ⟨.Early⟩

/-- `Phase::new`: the phase determined by the current turn. -/
def Phase.new (turn : Nat) : Phase :=
  if turn < 20 then .Early
  else if turn < 40 then .Mid
  else .End

/-- `Phase::to_index`. -/
def Phase.to_index : Phase → Nat
  | .Early => 0
  | .Mid => 1
  | _ => 2

/-- `PLACEMENT_WEIGHTS`, `MOBILITY_WEIGHTS`, `NUM_DISKS_WEIGHTS`
(early/mid/end stage weights, `game.rs`). -/
def PLACEMENT_WEIGHTS : List Int := [5, 4, 2]
def MOBILITY_WEIGHTS : List Int := [5, 4, 3]
def NUM_DISKS_WEIGHTS : List Int := [-1, -1, 0]

/-- `game.rs::Game`. -/
structure Game where
  board : Board
  current_player : Player
  phase : Phase
  winner : Option Player
deriving DecidableEq

/-- `Default` for `Game` (derived in the source): note that the default
board is the all-empty grid, not `Board::new`. -/
instance : Inhabited Game := ⟨⟨default, default, default, none⟩⟩

/-- `Game::new`. -/
def Game.new : Game :=
  { board := Board.new
    current_player := .Bot
    phase := Phase.new 0
    winner := none }

/-- The inner `while` of `Game::actions`: starting from `walker` (the first
cell next to a disk of `player`), walk in direction `dir` over opponent
disks; reaching an empty cell after crossing at least one opponent disk
(`distance > 1`) nominates that cell, anything else nominates nothing.
`fuel` only bounds the recursion: the walker moves one cell per step along
a ray of at most `BOARD_SIZE` cells and stops at the edge, so with
`fuel = BOARD_SIZE` the fuel never runs out. -/
def Game.walkDir (b : Board) (player : Player) (dir : Direction) :
    Position → Nat → Nat → Option Position
  | _, _, 0 => none
  | walker, distance, fuel + 1 =>
    match b.disk walker with
    | none => if distance > 1 then some walker else none
    | some disk =>
      if disk = player.opponent.disk then
        match Board.neighbour walker dir with
        | none => none
        | some next => Game.walkDir b player dir next (distance + 1) fuel
      else none

/-- Inserting into the `HashSet` of `Game::actions`: deduplicate, keep
insertion order. -/
def insertAction (acc : List Action) (a : Action) : List Action :=
  if a ∈ acc then acc else acc ++ [a]

/-- The per-position body of `Game::actions`: try all 8 directions. -/
def Game.actionsFrom (b : Board) (player : Player) (acc : List Action)
    (pos : Position) : List Action :=
  Direction.all.foldl (fun acc dir =>
    match Board.neighbour pos dir with
    | none => acc
    | some walker =>
      match Game.walkDir b player dir walker 1 BOARD_SIZE with
      | some placement => insertAction acc ⟨player, placement⟩
      | none => acc) acc

/-- `Game::actions` on a board: walk out of every cell of the player. -/
def Board.actions (b : Board) (player : Player) : List Action :=
  (b.positions player.disk).foldl (Game.actionsFrom b player) []

/-- `Game::actions`. -/
def Game.actions (g : Game) (player : Player) : List Action :=
  g.board.actions player

/-- `Game::is_over` on a board: neither player has an action. -/
def Board.is_over (b : Board) : Bool :=
  (b.actions .Bot).isEmpty && (b.actions .Human).isEmpty

/-- `Game::is_over`. -/
def Game.is_over (g : Game) : Bool :=
  g.board.is_over

/-- The winner stored by `Game::set_winner` (its `assert!(self.is_over())`
holds at both call sites, which guard it with `is_over`): the player with
strictly more disks, or `None` on equal counts. -/
def Board.winner_value (b : Board) : Option Player :=
  let num_bot_disks := (b.positions Player.Bot.disk).length
  let num_human_disks := (b.positions Player.Human.disk).length
  if num_bot_disks > num_human_disks then some .Bot
  else if num_human_disks > num_bot_disks then some .Human
  else none

/-- `Game::parse`: derive the phase from the turn
(`dark + light - INITIAL_NUM_DISKS` in `usize` arithmetic, whose
wrap-around below 4 disks is modelled modulo `2^64`), then record a winner
if the position is already terminal. -/
def Game.parse (board : Board) (current_player : Player) : Game :=
  let INITIAL_NUM_DISKS : Nat := 4
  let turn := ((board.positions .Dark).length + (board.positions .Light).length
    + (2 ^ 64 - INITIAL_NUM_DISKS)) % 2 ^ 64
  let game : Game :=
    { board
      current_player
      phase := Phase.new turn
      winner := none }
  if game.is_over then { game with winner := game.board.winner_value } else game

/-- `Game::winner` (asserts `is_over`). -/
def Game.winner_checked (g : Game) : PResult (Option Player) :=
  if g.is_over then .ok g.winner else .panicked

/-- The capture walk of one direction of `Game::result`: collect the
opponent disks from `walker` onwards into the path and return the final
walker (the first non-opponent cell, or the last in-bounds cell of the ray
when the edge is reached).  Fuel as in `Game.walkDir`. -/
def Game.walkPath (b : Board) (opponent : Disk) (dir : Direction) :
    Position → Nat → List Position × Position
  | walker, 0 => ([], walker)
  | walker, fuel + 1 =>
    if b.disk walker = some opponent then
      match Board.neighbour walker dir with
      | none => ([walker], walker)
      | some next =>
        let wp := Game.walkPath b opponent dir next fuel
        (walker :: wp.1, wp.2)
    else ([], walker)

/-- Flipping every position of a committed capture path
(each `flip` is `unwrap`ped: an `Err` would panic). -/
def Game.flipPath (b : Board) : List Position → PResult Board
  | [] => .ok b
  | pos :: rest =>
    match b.flip pos with
    | .ok b' => Game.flipPath b' rest
    | _ => .panicked

/-- One direction of the capture loop of `Game::result`. -/
def Game.applyDir (b : Board) (player : Player) (placement : Position)
    (dir : Direction) : PResult Board :=
  match Board.neighbour placement dir with
  | none => .ok b
  | some walker =>
    let wp := Game.walkPath b player.opponent.disk dir walker BOARD_SIZE
    if b.disk wp.2 = some player.disk then Game.flipPath b wp.1 else .ok b

/-- The direction loop of `Game::result`. -/
def Game.applyDirs (b : Board) (player : Player) (placement : Position) :
    List Direction → PResult Board
  | [] => .ok b
  | dir :: rest =>
    match Game.applyDir b player placement dir with
    | .ok b' => Game.applyDirs b' player placement rest
    | .err e => .err e
    | .panicked => .panicked

/-- `Game::result`: place the acting player's disk (`unwrap`ped: failure
panics), resolve captures in all 8 directions, pass the turn to the
opponent, and record a winner if the new position is terminal.  The phase
and (when the game is not over) the winner are those of the cloned `self`. -/
def Game.result (g : Game) (action : Action) : PResult Game :=
  match g.board.place action.player.disk action.placement with
  | .ok placed =>
    match Game.applyDirs placed action.player action.placement Direction.all with
    | .ok board' =>
      .ok { board := board'
            current_player := action.player.opponent
            phase := g.phase
            winner := if board'.is_over then board'.winner_value else g.winner }
    | _ => .panicked
  | _ => .panicked

/-- `Game::evaluate`: the phase-weighted sum of the placement, mobility and
disk-count differentials between Bot and Human.  The phase index is always
0, 1 or 2, so the `getD` defaults are never consulted. -/
def Game.evaluate (g : Game) : Int :=
  let phase_index := g.phase.to_index
  PLACEMENT_WEIGHTS.getD phase_index 0 * (
      ((g.board.positions Player.Bot.disk).map Position.weight).sum -
      ((g.board.positions Player.Human.disk).map Position.weight).sum
    ) + MOBILITY_WEIGHTS.getD phase_index 0 * (
      ((g.actions .Bot).length : Int) -
      ((g.actions .Human).length : Int)
    ) + NUM_DISKS_WEIGHTS.getD phase_index 0 * (
      ((g.board.positions Player.Bot.disk).length : Int) -
      ((g.board.positions Player.Human.disk).length : Int)
    )

/-- The board built by the `MAX_BEST_EVALUATION` static: starting from
`Board::new`, flip every Dark disk and place a Bot (Light) disk on every
empty cell (both `unwrap`ped in the source; both always succeed, the
unreachable arms keep the board unchanged). -/
def allLightBoard : Board :=
  Position.all.foldl (fun board pos =>
    match board.disk pos with
    | some .Dark =>
      match board.flip pos with
      | .ok b' => b'
      | _ => board
    | none =>
      match board.place Player.Bot.disk pos with
      | .ok b' => b'
      | _ => board
    | some .Light => board) Board.new

/-- `max_best_evaluation`: the evaluation of the all-Light board, parsed
with the default player (Bot). -/
def max_best_evaluation : Int :=
  (Game.parse allLightBoard default).evaluate

/-- `min_best_evaluation`. -/
def min_best_evaluation : Int :=
  -max_best_evaluation

/-- `Game::utility` (asserts `is_over`): maximal for a Bot win, minimal for
a Human win, and 0 when there is no winner. -/
def Game.utility (g : Game) : PResult Int :=
  if g.is_over then
    .ok (match g.winner with
      | some .Bot => max_best_evaluation
      | some .Human => min_best_evaluation
      | none => 0)
  else .panicked

/-! ### `bot.rs` -/

/-- The mutable search state of a `Bot` during `decide`: the minimax cache
(the source's `HashMap`, as an association list where a newer entry shadows
an older one) and the node-expansion counter. -/
def MState : Type := List (Game × Int) × Nat

/-- `bot.rs::Bot`. -/
structure Bot where
  depth_limit : Nat
  game : Game
  minimax_cache : List (Game × Int)
  num_nodes_expanded : Nat

/-- `Bot::new`. -/
def Bot.new (intelligence : Nat) : Bot :=
  { depth_limit := intelligence
    game := Game.new
    minimax_cache := []
    num_nodes_expanded := 0 }

/-- `Bot::evaluate`: the memoized static evaluation. -/
def Bot.evaluateMemo (st : MState) (game : Game) : Int × MState :=
  match List.lookup game st.1 with
  | some value => (value, st)
  | none =>
    let value := game.evaluate
    (value, ((game, value) :: st.1, st.2))

/-! `Bot::min_value` / `Bot::max_value` / their `for` loops, with the
search state threaded explicitly.  `fuel` only serves termination: the
functions recurse solely while `depth ≤ depth_limit`, each level adds 1 to
`depth`, and every entry point passes `fuel = depth_limit + 1` at
`depth = 1`, so the fuel never runs out (the `fuel = 0` branch is
unreachable). -/
mutual

def Bot.min_value (dl fuel : Nat) (st : MState) (game : Game)
    (max_best min_best : Int) (depth : Nat) : PResult (Int × MState) :=
  if game.is_over then game.utility.map (fun v => (v, st))
  else if depth > dl then .ok (Bot.evaluateMemo st game)
  else
    match fuel with
    | 0 => .panicked
    | fuel + 1 =>
      Bot.minLoop dl fuel (st.1, st.2 + 1) game max_best min_best
        max_best_evaluation depth (game.actions .Human)
termination_by (fuel, 0)

def Bot.minLoop (dl fuel : Nat) (st : MState) (game : Game)
    (max_best min_best min_best_here : Int) (depth : Nat)
    (acts : List Action) : PResult (Int × MState) :=
  match acts with
  | [] => .ok (min_best_here, st)
  | act :: rest =>
    match game.result act with
    | .ok result =>
      match Bot.max_value dl fuel st result max_best min_best (depth + 1) with
      | .ok (value, st') =>
        let min_best_here := if value < min_best_here then value else min_best_here
        if min_best_here ≤ min_best then .ok (min_best_here, st')
        else
          Bot.minLoop dl fuel st' game max_best (min min_best min_best_here)
            min_best_here depth rest
      | _ => .panicked
    | _ => .panicked
termination_by (fuel, acts.length + 1)

def Bot.max_value (dl fuel : Nat) (st : MState) (game : Game)
    (max_best min_best : Int) (depth : Nat) : PResult (Int × MState) :=
  if game.is_over then game.utility.map (fun v => (v, st))
  else if depth > dl then .ok (Bot.evaluateMemo st game)
  else
    match fuel with
    | 0 => .panicked
    | fuel + 1 =>
      Bot.maxLoop dl fuel (st.1, st.2 + 1) game max_best min_best
        min_best_evaluation depth (game.actions .Bot)
termination_by (fuel, 0)

def Bot.maxLoop (dl fuel : Nat) (st : MState) (game : Game)
    (max_best min_best max_best_here : Int) (depth : Nat)
    (acts : List Action) : PResult (Int × MState) :=
  match acts with
  | [] => .ok (max_best_here, st)
  | act :: rest =>
    match game.result act with
    | .ok result =>
      match Bot.min_value dl fuel st result max_best min_best (depth + 1) with
      | .ok (value, st') =>
        let max_best_here := if value > max_best_here then value else max_best_here
        if max_best_here ≥ min_best then .ok (max_best_here, st')
        else
          Bot.maxLoop dl fuel st' game (max max_best max_best_here) min_best
            max_best_here depth rest
      | _ => .panicked
    | _ => .panicked
termination_by (fuel, acts.length + 1)

end

/-- The root loop of `Bot::decide`, threading all its mutable locals;
returns the final `(state, minimax_value, num_actions, decided,
best_action, best_result)`. -/
def Bot.decideLoop (dl : Nat) (game : Game) (st : MState)
    (bot_best human_best minimax_value : Int) (num_actions : Nat)
    (decided : Bool) (best_action : Action) (best_result : Game) :
    List Action → PResult (MState × Int × Nat × Bool × Action × Game)
  | [] => .ok (st, minimax_value, num_actions, decided, best_action, best_result)
  | act :: rest =>
    match game.result act with
    | .ok result =>
      match Bot.min_value dl (dl + 1) st result bot_best human_best 1 with
      | .ok (value, st') =>
        if value ≥ minimax_value then
          Bot.decideLoop dl game st' (max bot_best value) human_best value
            (num_actions + 1) true act result rest
        else
          Bot.decideLoop dl game st' (max bot_best minimax_value) human_best
            minimax_value (num_actions + 1) decided best_action best_result rest
      | _ => .panicked
    | _ => .panicked

/-- `Bot::decide`: `assert_eq!` that the *placeholder* game's current
player is Bot (it always is: `Bot::new` stores `Game::new` and never
reassigns it), then search every Bot action of the *argument* game;
zero legal actions is an `Err(InvalidArgument)`. -/
def Bot.decide (bot : Bot) (game : Game) : PResult (Action × Game) :=
  if bot.game.current_player = Player.Bot then
    match Bot.decideLoop bot.depth_limit game (bot.minimax_cache, 1)
        min_best_evaluation max_best_evaluation min_best_evaluation 0 false
        default default (game.actions .Bot) with
    | .ok (_, _, num_actions, decided, best_action, best_result) =>
      if num_actions = 0 then
        .err (.invalidArgument "No actions are available from the given game.")
      else if decided then .ok (best_action, best_result)
      else .panicked
    | _ => .panicked
  else .panicked

/-! ### `main.rs` -/

/-- Outcome of an HTTP handler: a 200 body, a 400 with its plain-text
message, or a panic of the handler (surfaced by the framework as a 500,
not as a 400). -/
inductive Resp (α : Type) where
  | ok (val : α)
  | badRequest (msg : String)
  | panicked
deriving DecidableEq

/-- The JSON object built by `serialize_result`: the board text, plus —
only when the game is over — a `winner` field holding the winner's
character or JSON null. -/
structure SerializedResult where
  board : String
  winner : Option (Option String)
deriving DecidableEq

def serialize_result (game : Game) : SerializedResult :=
  { board := game.board.display
    winner := if game.is_over then
        some (match game.winner_checked with
          | .ok w => w.map (fun p => p.char.toString)
          | _ => none)
      else none }

/-- `GET /api/evaluate` (`main.rs::evaluate`): 400 on a board parse error.
On success the source normalizes the evaluation into `[0,1]` as an `f32`
and returns its decimal string; the claims only concern the error paths,
so the body is modelled as the raw evaluation. -/
def evaluateRoute (board : String) : Resp Int :=
  match Board.parse board with
  | .err _ => .badRequest "Invalid board"
  | .panicked => .panicked
  | .ok b => .ok (Game.parse b default).evaluate

/-- `GET /api/result` (`main.rs::result`).  Note the bare `.unwrap()` on
`Position::parse`: a position parse failure panics the handler instead of
producing a 400. -/
def resultRoute (board position player : String) : Resp SerializedResult :=
  match Board.parse board with
  | .err _ => .badRequest "Invalid board"
  | .panicked => .panicked
  | .ok b =>
    match player.toList.head? with
    | none => .badRequest "Invalid player"
    | some ch =>
      match Player.parse ch with
      | .err _ => .badRequest "Invalid player"
      | .panicked => .panicked
      | .ok pl =>
        let game := Game.parse b pl
        match Position.parse position with
        | .ok pos =>
          let action : Action := ⟨pl, pos⟩
          if action ∈ game.actions pl then
            match game.result action with
            | .ok game' => .ok (serialize_result game')
            | _ => .panicked
          else .badRequest "Invalid action for the given player"
        | _ => .panicked

/-- The JSON object returned by `GET /api/decide`. -/
structure DecideResponse where
  decision : Option String
  result : SerializedResult
deriving DecidableEq

/-- `GET /api/decide` (`main.rs::decide`): a `Bot::decide` error (no
available actions) is converted into a 200 with a null decision and the
unmodified input game. -/
def decideRoute (board : String) (intelligence : Nat) : Resp DecideResponse :=
  let bot := Bot.new intelligence
  match Board.parse board with
  | .err _ => .badRequest "Invalid board"
  | .panicked => .panicked
  | .ok b =>
    let game := Game.parse b .Bot
    match bot.decide game with
    | .err _ => .ok { decision := none, result := serialize_result game }
    | .ok (action, game') =>
      .ok { decision := some action.display, result := serialize_result game' }
    | .panicked => .panicked

/-! ### Claim-side definitions and concrete fixtures -/

/-- The phase derivation stated by the specification: the turn is the
total disk count minus the four initial disks, and the phase is Early
below turn 20, Mid below 40, End from 40 on. -/
def derivedPhase (b : Board) : Phase :=
  Phase.new ((b.positions .Dark).length + (b.positions .Light).length - 4)

/-- The phase indexing stated by the specification: Early = 0, Mid = 1,
End = 2. -/
def phase_index_spec : Phase → Nat
  | .Early => 0
  | .Mid => 1
  | .End => 2

/-- The evaluation formula stated by the specification: with `i` the phase
index, `[5,4,2][i]` times the positional-weight differential plus
`[5,4,3][i]` times the mobility differential plus `[-1,-1,0][i]` times the
disk-count differential, each between Bot and Human. -/
def evaluate_spec (g : Game) : Int :=
  let i := phase_index_spec g.phase
  ([5, 4, 2] : List Int).getD i 0 * (
      ((g.board.positions Player.Bot.disk).map Position.weight).sum -
      ((g.board.positions Player.Human.disk).map Position.weight).sum
    ) + ([5, 4, 3] : List Int).getD i 0 * (
      ((g.actions .Bot).length : Int) -
      ((g.actions .Human).length : Int)
    ) + ([-1, -1, 0] : List Int).getD i 0 * (
      ((g.board.positions Player.Bot.disk).length : Int) -
      ((g.board.positions Player.Human.disk).length : Int)
    )

/-- Replacing only the current player of a game, all other fields kept. -/
def Game.withCurrentPlayer (g : Game) (p : Player) : Game :=
  { g with current_player := p }

/-- The disk denoted by a board character, as the specification describes
the overlay of `Board::parse` (`'E'` ↦ empty, `'D'` ↦ Dark, `'L'` ↦ Light;
the final branch is unreachable for inputs that `Board::parse` accepts). -/
def charDisk (ch : Char) : Option Disk :=
  if ch = EMPTY_CHAR then none
  else if ch = DARK_CHAR then some .Dark
  else if ch = LIGHT_CHAR then some .Light
  else none

/-- The number of occupied cells of a board. -/
def occupiedCount (b : Board) : Nat :=
  (Finset.univ.filter
    (fun p : Fin BOARD_SIZE × Fin BOARD_SIZE => (b.grid p.1 p.2).isSome)).card

/-- A terminal drawn position: one Dark disk at (0,0) and one Light disk
at (7,7); neither player has a legal action and the counts are equal. -/
def cexBoardC1 : Board := ⟨fun i j =>
  if (i : Nat) = 0 ∧ (j : Nat) = 0 then some .Dark
  else if (i : Nat) = 7 ∧ (j : Nat) = 7 then some .Light
  else none⟩

/-- A position with 23 disks (turn 19, phase Early) in which Bot's only
legal action, placing at (2,0), crosses the turn-20 phase boundary: rows 0
and 1 are Dark, row 2 holds Dark at columns 1–5 and Light at column 6, and
(7,0) is Dark. -/
def cexBoardC4 : Board := ⟨fun i j =>
  if (i : Nat) = 0 ∨ (i : Nat) = 1 then some .Dark
  else if (i : Nat) = 2 ∧ 1 ≤ (j : Nat) ∧ (j : Nat) ≤ 5 then some .Dark
  else if (i : Nat) = 2 ∧ (j : Nat) = 6 then some .Light
  else if (i : Nat) = 7 ∧ (j : Nat) = 0 then some .Dark
  else none⟩

/-- The game produced by Bot's move at (2,0) from `cexBoardC4`. -/
def resultC4 : Game :=
  match (Game.parse cexBoardC4 .Bot).result ⟨.Bot, ⟨2, 0⟩⟩ with
  | .ok g => g
  | _ => default

/-- The game produced by Bot's opening move at (2,3). -/
def resultC4w : Game :=
  match Game.new.result ⟨.Bot, ⟨2, 3⟩⟩ with
  | .ok g => g
  | _ => default

/-- A board text leaving a single Dark disk at (0,0): it covers all 64
cells, so the parsed board has no Light disk and Bot has no legal action. -/
def dataC8 : String :=
  "DEEEEEEE\nEEEEEEEE\nEEEEEEEE\nEEEEEEEE\nEEEEEEEE\nEEEEEEEE\nEEEEEEEE\nEEEEEEEE"

/-- The board parsed from `dataC8`. -/
def boardC8 : Board :=
  match Board.parse dataC8 with
  | .ok b => b
  | _ => default

/-- The board parsed from the two-line input `"LD\nEL"`. -/
def boardC7 : Board :=
  match Board.parse "LD\nEL" with
  | .ok b => b
  | _ => default

/-! ### Theorems -/

set_option maxRecDepth 10000 in
/-- C1, counterexample.  In the terminal drawn position `cexBoardC1`
(one Dark disk, one Light disk, no legal action for either player),
`winner()` is indeed absent, but `utility()` returns 0 — a neutral value —
and not `min_best_evaluation()` (which is −1584), contradicting the claim
that draws are scored identically to a Human win. -/
theorem claim_c1_counterexample :
    (Game.parse cexBoardC1 .Bot).is_over = true
    ∧ (cexBoardC1.positions Player.Bot.disk).length
        = (cexBoardC1.positions Player.Human.disk).length
    ∧ (Game.parse cexBoardC1 .Bot).winner_checked = .ok none
    ∧ (Game.parse cexBoardC1 .Bot).utility = .ok 0
    ∧ (Game.parse cexBoardC1 .Bot).utility ≠ .ok min_best_evaluation
    ∧ min_best_evaluation = -1584 := by decide

/-- C1, amended.  For every parsed game that is over with equally many Bot
and Human disks, the winner is absent and `utility()` returns 0 (the
neutral `None` arm of the `match`), not `min_best_evaluation()`. -/
theorem claim_c1_theorem (b : Board) (p : Player)
    (hover : (Game.parse b p).is_over = true)
    (heq : (b.positions Player.Bot.disk).length
      = (b.positions Player.Human.disk).length) :
    (Game.parse b p).winner = none ∧ (Game.parse b p).utility = .ok 0 := by
  have hw : (Game.parse b p).winner = none := by
    unfold Game.parse
    dsimp only
    split
    · show Board.winner_value b = none
      unfold Board.winner_value
      simp [heq]
    · rfl
  refine ⟨hw, ?_⟩
  unfold Game.utility
  rw [hw]
  simp [hover]

set_option maxRecDepth 10000 in
/-- C1, witness for the amended theorem at `cexBoardC1`. -/
theorem claim_c1_witness :
    (Game.parse cexBoardC1 .Bot).winner = none
    ∧ (Game.parse cexBoardC1 .Bot).utility = .ok 0 :=
  claim_c1_theorem cexBoardC1 .Bot (by decide) (by decide)

/-- C2 (code bug).  A parse failure does not always yield a 400: the
`result` handler `unwrap`s `Position::parse`, so `/api/result` with the
unparseable position `"abc"` panics, and `Board::parse` writes through
unchecked indices, so a board text with a ninth character in a line (or a
ninth non-empty line) panics any endpoint that parses a board, here
`/api/evaluate`. -/
theorem claim_c2_theorem :
    resultRoute "" "abc" "H" = .panicked
    ∧ evaluateRoute "DDDDDDDDD" = .panicked := by decide

/-- C3, counterexample.  `"1,x,2"` splits into three comma-separated
components, one of which does not parse as an unsigned integer, yet
`Position::parse` succeeds with (1,2): the source filters out the failing
components before matching for exactly two. -/
theorem claim_c3_counterexample :
    Position.parse "1,x,2" = .ok ⟨1, 2⟩
    ∧ (splitOnChar ',' ("1,x,2".toList)).length ≠ 2 := by decide

/-- C3, amended.  `Position::parse s` succeeds with position `p` exactly
when, after discarding the comma-separated components of `s` that fail to
parse as unsigned integers, exactly two components remain, and they are
`p.row` and `p.col`; otherwise it returns a `ParseError`. -/
theorem claim_c3_theorem (s : String) (p : Position) :
    Position.parse s = .ok p
      ↔ (splitOnChar ',' s.toList).filterMap parseUsizeChars = [p.row, p.col] := by
  unfold Position.parse
  split
  next row col heq =>
    rw [heq]
    constructor
    · intro h
      injection h with h
      rw [← h]
    · intro h
      injection h with h1 h2
      injection h2 with h2 _
      cases p
      simp_all
  next hnot =>
    constructor
    · intro h
      exact absurd h (by simp)
    · intro h
      exact absurd h (hnot p.row p.col)

set_option maxRecDepth 10000 in
/-- C4, counterexample.  From the 23-disk position `cexBoardC4` (turn 19,
phase Early), Bot's legal move at (2,0) produces a 24-disk board whose
derived phase is Mid, yet the resulting game's phase is still Early:
`Game::result` clones the phase and never recomputes it. -/
theorem claim_c4_counterexample :
    (⟨.Bot, ⟨2, 0⟩⟩ : Action) ∈ (Game.parse cexBoardC4 .Bot).actions .Bot
    ∧ (Game.parse cexBoardC4 .Bot).result ⟨.Bot, ⟨2, 0⟩⟩ = .ok resultC4
    ∧ resultC4.phase = .Early
    ∧ derivedPhase resultC4.board = .Mid
    ∧ Phase.Early ≠ Phase.Mid := by decide

/-- C4, amended.  `Game::result` preserves the phase of the pre-move game
unchanged (the phase is set only by `Game::new`/`Game::parse`); it
coincides with the phase derived from the resulting board's turn only when
the move does not cross a phase boundary. -/
theorem claim_c4_theorem (g : Game) (a : Action) (g' : Game)
    (h : g.result a = .ok g') : g'.phase = g.phase := by
  unfold Game.result at h
  split at h
  · split at h
    · injection h with h
      rw [← h]
    · exact (PResult.noConfusion h)
  · exact (PResult.noConfusion h)

set_option maxRecDepth 10000 in
/-- C4, witness for the amended theorem at Bot's opening move (2,3). -/
theorem claim_c4_witness :
    Game.new.result ⟨.Bot, ⟨2, 3⟩⟩ = .ok resultC4w
    ∧ resultC4w.phase = Game.new.phase :=
  ⟨by decide, claim_c4_theorem Game.new ⟨.Bot, ⟨2, 3⟩⟩ resultC4w (by decide)⟩

/-- C5.  The legal Bot (Light) actions from `Game::new` are exactly the
four placements (2,3), (3,2), (4,5), (5,4), as a set (the computed list is
a permutation of them, hence equal without regard to enumeration order). -/
theorem claim_c5_theorem :
    (Game.new.actions .Bot).Perm
      [⟨.Bot, ⟨2, 3⟩⟩, ⟨.Bot, ⟨3, 2⟩⟩, ⟨.Bot, ⟨4, 5⟩⟩, ⟨.Bot, ⟨5, 4⟩⟩] := by
  decide

/-- C6.  For every game state, `evaluate` equals the specification's
formula: the phase-indexed weights `[5,4,2]`, `[5,4,3]`, `[-1,-1,0]`
(Early = 0, Mid = 1, End = 2) applied to the placement-weight, mobility
and disk-count differentials between Bot and Human. -/
theorem claim_c6_theorem (g : Game) : g.evaluate = evaluate_spec g := by
  rcases g with ⟨b, cp, ph, w⟩
  cases ph <;> rfl

/-- C8.  Whenever the parsed board leaves Bot without a legal action,
`Bot::decide` fails with `InvalidArgument`, while `/api/decide` responds
200 with a null decision and the serialization of the unmodified input
game. -/
theorem claim_c8_theorem (data : String) (b : Board) (n : Nat)
    (hb : Board.parse data = .ok b)
    (ha : (Game.parse b .Bot).actions .Bot = []) :
    Bot.decide (Bot.new n) (Game.parse b .Bot)
      = .err (.invalidArgument "No actions are available from the given game.")
    ∧ decideRoute data n = .ok ⟨none, serialize_result (Game.parse b .Bot)⟩ := by
  have hdec : Bot.decide (Bot.new n) (Game.parse b .Bot)
      = .err (.invalidArgument "No actions are available from the given game.") := by
    unfold Bot.decide
    rw [ha]
    simp [Bot.new, Game.new, Bot.decideLoop]
  refine ⟨hdec, ?_⟩
  unfold decideRoute
  rw [hb]
  simp only []
  rw [hdec]

set_option maxRecDepth 20000 in
/-- C8, witness at the board text `dataC8` (a single Dark disk). -/
theorem claim_c8_witness :
    Board.parse dataC8 = .ok boardC8
    ∧ (Game.parse boardC8 .Bot).actions .Bot = []
    ∧ decideRoute dataC8 3
        = .ok ⟨none, serialize_result (Game.parse boardC8 .Bot)⟩ :=
  ⟨by decide, by decide, (claim_c8_theorem dataC8 boardC8 3 (by decide) (by decide)).2⟩

/-- The root loop of `Bot::decide` never reads the current player of the
game it searches: games differing only in that field produce identical
runs. -/
theorem decideLoop_current_player (dl : Nat) (b : Board) (cp cp' : Player)
    (ph : Phase) (w : Option Player) :
    ∀ (acts : List Action) (st : MState) (bb hb mmv : Int) (na : Nat)
      (dec : Bool) (ba : Action) (br : Game),
    Bot.decideLoop dl ⟨b, cp, ph, w⟩ st bb hb mmv na dec ba br acts
      = Bot.decideLoop dl ⟨b, cp', ph, w⟩ st bb hb mmv na dec ba br acts := by
  intro acts
  induction acts with
  | nil => intro st bb hb mmv na dec ba br; rfl
  | cons act rest ih =>
    intro st bb hb mmv na dec ba br
    simp only [Bot.decideLoop]
    rw [show Game.result ⟨b, cp, ph, w⟩ act = Game.result ⟨b, cp', ph, w⟩ act from rfl]
    cases Game.result ⟨b, cp', ph, w⟩ act with
    | ok r =>
      dsimp only
      cases Bot.min_value dl (dl + 1) st r bb hb 1 with
      | ok vs =>
        rcases vs with ⟨value, st'⟩
        dsimp only
        split
        · exact ih st' (max bb value) hb value (na + 1) true act r
        · exact ih st' (max bb mmv) hb mmv (na + 1) dec ba br
      | err e => rfl
      | panicked => rfl
    | err e => rfl
    | panicked => rfl

/-- C9.  The player-to-move assertion at the start of `Bot::decide`
inspects the Bot's internal placeholder game — which `Bot::new` sets to
`Game::new` (Bot to move) and which is never reassigned — so it always
passes, and the behaviour of `decide` is independent of the current player
of the argument game. -/
theorem claim_c9_theorem (n : Nat) (g : Game) (p : Player) :
    (Bot.new n).game.current_player = Player.Bot
    ∧ Bot.decide (Bot.new n) (g.withCurrentPlayer p) = Bot.decide (Bot.new n) g := by
  refine ⟨rfl, ?_⟩
  rcases g with ⟨b, cp, ph, w⟩
  show Bot.decide (Bot.new n) ⟨b, p, ph, w⟩ = Bot.decide (Bot.new n) ⟨b, cp, ph, w⟩
  unfold Bot.decide
  rw [show (Game.mk b p ph w).actions .Bot = (Game.mk b cp ph w).actions .Bot from rfl]
  rw [decideLoop_current_player (Bot.new n).depth_limit b p cp ph w]

/-! ### Helper lemmas for C10 -/

/-- A position produced by `Board::neighbour` is in bounds. -/
theorem neighbour_is_inbound (pos : Position) (dir : Direction) (q : Position)
    (h : Board.neighbour pos dir = some q) : q.is_inbound := by
  unfold Board.neighbour at h
  dsimp only at h
  split at h
  next hc =>
    injection h with h
    subst h
    unfold Position.is_inbound
    dsimp only
    unfold BOARD_SIZE at hc ⊢
    omega
  next => exact Option.noConfusion h

/-- The placement nominated by the walk of `Game::actions` is an in-bounds
empty cell. -/
theorem walkDir_empty (b : Board) (pl : Player) (dir : Direction) :
    ∀ (fuel : Nat) (w : Position) (dist : Nat) (res : Position),
      w.is_inbound → Game.walkDir b pl dir w dist fuel = some res →
      res.is_inbound ∧ b.disk res = none := by
  intro fuel
  induction fuel with
  | zero => intro w dist res _ h; exact Option.noConfusion h
  | succ fuel ih =>
    intro w dist res hw h
    simp only [Game.walkDir] at h
    rcases hd : b.disk w with _ | d
    · rw [hd] at h
      dsimp only at h
      split at h
      · injection h with h
        subst h
        exact ⟨hw, hd⟩
      · exact Option.noConfusion h
    · rw [hd] at h
      dsimp only at h
      split at h
      · rcases hn : Board.neighbour w dir with _ | next
        · rw [hn] at h; exact Option.noConfusion h
        · rw [hn] at h
          exact ih next (dist + 1) res (neighbour_is_inbound w dir next hn) h
      · exact Option.noConfusion h

theorem mem_insertAction {acc : List Action} {a x : Action}
    (h : x ∈ insertAction acc a) : x ∈ acc ∨ x = a := by
  unfold insertAction at h
  split at h
  · exact Or.inl h
  · rcases List.mem_append.mp h with h | h
    · exact Or.inl h
    · exact Or.inr (by simpa using h)

/-- Invariant of the direction loop of `Game::actions`: every accumulated
action belongs to `player` and targets an in-bounds empty cell. -/
theorem mem_dirs_foldl (b : Board) (pl : Player) (pos : Position) :
    ∀ (dirs : List Direction) (acc : List Action) (x : Action),
      x ∈ dirs.foldl (fun acc dir =>
        match Board.neighbour pos dir with
        | none => acc
        | some walker =>
          match Game.walkDir b pl dir walker 1 BOARD_SIZE with
          | some placement => insertAction acc ⟨pl, placement⟩
          | none => acc) acc →
      (∀ y ∈ acc, y.player = pl ∧ y.placement.is_inbound ∧ b.disk y.placement = none) →
      x.player = pl ∧ x.placement.is_inbound ∧ b.disk x.placement = none := by
  intro dirs
  induction dirs with
  | nil => intro acc x hx hacc; exact hacc x hx
  | cons dir rest ih =>
    intro acc x hx hacc
    simp only [List.foldl_cons] at hx
    refine ih _ x hx ?_
    intro y hy
    rcases hn : Board.neighbour pos dir with _ | walker
    · rw [hn] at hy; exact hacc y hy
    · rw [hn] at hy
      dsimp only at hy
      rcases hwd : Game.walkDir b pl dir walker 1 BOARD_SIZE with _ | placement
      · rw [hwd] at hy; exact hacc y hy
      · rw [hwd] at hy
        rcases mem_insertAction hy with h | h
        · exact hacc y h
        · subst h
          have := walkDir_empty b pl dir BOARD_SIZE walker 1 placement
            (neighbour_is_inbound pos dir walker hn) hwd
          exact ⟨rfl, this.1, this.2⟩

/-- Invariant of the position loop of `Game::actions`. -/
theorem mem_positions_foldl (b : Board) (pl : Player) :
    ∀ (ps : List Position) (acc : List Action) (x : Action),
      x ∈ ps.foldl (Game.actionsFrom b pl) acc →
      (∀ y ∈ acc, y.player = pl ∧ y.placement.is_inbound ∧ b.disk y.placement = none) →
      x.player = pl ∧ x.placement.is_inbound ∧ b.disk x.placement = none := by
  intro ps
  induction ps with
  | nil => intro acc x hx hacc; exact hacc x hx
  | cons p rest ih =>
    intro acc x hx hacc
    simp only [List.foldl_cons] at hx
    refine ih _ x hx ?_
    intro y hy
    exact mem_dirs_foldl b pl p Direction.all acc y hy hacc

/-- Every legal action of `player` on a board belongs to that player and
places on an in-bounds empty cell. -/
theorem mem_actions (b : Board) (pl : Player) (a : Action)
    (h : a ∈ b.actions pl) :
    a.player = pl ∧ a.placement.is_inbound ∧ b.disk a.placement = none :=
  mem_positions_foldl b pl (b.positions pl.disk) [] a h (by simp)

theorem grid_set_eq (b : Board) (i j : Fin BOARD_SIZE) (d : Option Disk)
    (r c : Fin BOARD_SIZE) :
    (b.set i j d).grid r c = if r = i ∧ c = j then d else b.grid r c := rfl

/-- Writing a disk into an empty cell adds exactly one occupied cell. -/
theorem occupiedCount_set_some (b : Board) (i j : Fin BOARD_SIZE) (d : Disk)
    (h : b.grid i j = none) :
    occupiedCount (b.set i j (some d)) = occupiedCount b + 1 := by
  unfold occupiedCount
  have hins : (Finset.univ.filter
        (fun p : Fin BOARD_SIZE × Fin BOARD_SIZE =>
          ((b.set i j (some d)).grid p.1 p.2).isSome))
      = insert (i, j) (Finset.univ.filter
        (fun p : Fin BOARD_SIZE × Fin BOARD_SIZE => (b.grid p.1 p.2).isSome)) := by
    ext p
    simp only [Finset.mem_filter, Finset.mem_insert, Finset.mem_univ, true_and,
      grid_set_eq]
    by_cases hp : p = (i, j)
    · subst hp
      simp
    · have hne : ¬(p.1 = i ∧ p.2 = j) := by
        rintro ⟨h1, h2⟩
        exact hp (Prod.ext h1 h2)
      simp [hne, hp]
  rw [hins, Finset.card_insert_of_not_mem]
  simp [h]

/-- Boards with pointwise equal occupancy have the same occupied count. -/
theorem occupiedCount_congr (b b' : Board)
    (h : ∀ i j, (b'.grid i j).isSome = (b.grid i j).isSome) :
    occupiedCount b' = occupiedCount b := by
  unfold occupiedCount
  congr 1
  apply Finset.filter_congr
  intro p _
  rw [h p.1 p.2]

theorem disk_isSome_congr (b b' : Board)
    (h : ∀ i j, (b'.grid i j).isSome = (b.grid i j).isSome) (q : Position) :
    (b'.disk q).isSome = (b.disk q).isSome := by
  unfold Board.disk
  split
  · exact h _ _
  · rfl

/-- Flipping an occupied in-bounds cell succeeds and preserves occupancy
pointwise. -/
theorem flip_ok_isSome (b : Board) (q : Position)
    (hin : q.is_inbound) (hocc : (b.disk q).isSome) :
    ∃ b', b.flip q = .ok b'
      ∧ ∀ i j, (b'.grid i j).isSome = (b.grid i j).isSome := by
  have h8 : q.row < BOARD_SIZE ∧ q.col < BOARD_SIZE := hin
  rcases hd : b.disk q with _ | d
  · rw [hd] at hocc; exact absurd hocc (by simp)
  · have hgrid : b.grid ⟨q.row, h8.1⟩ ⟨q.col, h8.2⟩ = some d := by
      unfold Board.disk at hd
      rw [dif_pos h8] at hd
      exact hd
    refine ⟨b.set ⟨q.row, h8.1⟩ ⟨q.col, h8.2⟩
      (some (if d = .Dark then .Light else .Dark)), ?_, ?_⟩
    · unfold Board.flip
      rw [dif_pos h8, hd]
    · intro i j
      rw [grid_set_eq]
      split_ifs with hij
      · obtain ⟨rfl, rfl⟩ := hij
        rw [hgrid]
        rfl
      · obtain ⟨rfl, rfl⟩ := hij
        rw [hgrid]
        rfl
      · rfl

/-- Flipping a path of occupied in-bounds cells succeeds and preserves
occupancy pointwise. -/
theorem flipPath_ok (path : List Position) :
    ∀ (b : Board), (∀ q ∈ path, q.is_inbound ∧ (b.disk q).isSome) →
    ∃ b', Game.flipPath b path = .ok b'
      ∧ ∀ i j, (b'.grid i j).isSome = (b.grid i j).isSome := by
  induction path with
  | nil => intro b _; exact ⟨b, rfl, fun i j => rfl⟩
  | cons q rest ih =>
    intro b hall
    obtain ⟨hin, hocc⟩ := hall q (List.mem_cons_self q rest)
    obtain ⟨b1, hf, hiso⟩ := flip_ok_isSome b q hin hocc
    obtain ⟨b', hrest, hiso'⟩ := ih b1 (fun p hp =>
      ⟨(hall p (List.mem_cons_of_mem q hp)).1, by
        rw [disk_isSome_congr b b1 hiso p]
        exact (hall p (List.mem_cons_of_mem q hp)).2⟩)
    refine ⟨b', ?_, fun i j => (hiso' i j).trans (hiso i j)⟩
    simp only [Game.flipPath]
    rw [hf]
    exact hrest

/-- Every cell collected by the capture walk holds an opponent disk and is
in bounds. -/
theorem walkPath_mem (b : Board) (opp : Disk) (dir : Direction) :
    ∀ (fuel : Nat) (w : Position), w.is_inbound →
      ∀ q ∈ (Game.walkPath b opp dir w fuel).1, b.disk q = some opp ∧ q.is_inbound := by
  intro fuel
  induction fuel with
  | zero => intro w hw q hq; exact absurd hq (by simp [Game.walkPath])
  | succ fuel ih =>
    intro w hw q hq
    simp only [Game.walkPath] at hq
    by_cases hd : b.disk w = some opp
    · rw [if_pos hd] at hq
      rcases hn : Board.neighbour w dir with _ | next
      · rw [hn] at hq
        dsimp only at hq
        rcases List.mem_cons.mp hq with rfl | hq
        · exact ⟨hd, hw⟩
        · exact absurd hq (by simp)
      · rw [hn] at hq
        dsimp only at hq
        rcases List.mem_cons.mp hq with rfl | hq
        · exact ⟨hd, hw⟩
        · exact ih next (neighbour_is_inbound w dir next hn) q hq
    · rw [if_neg hd] at hq
      exact absurd hq (by simp)

/-- One capture direction of `Game::result` succeeds and preserves
occupancy pointwise. -/
theorem applyDir_ok (b : Board) (pl : Player) (placement : Position)
    (dir : Direction) :
    ∃ b', Game.applyDir b pl placement dir = .ok b'
      ∧ ∀ i j, (b'.grid i j).isSome = (b.grid i j).isSome := by
  unfold Game.applyDir
  rcases hn : Board.neighbour placement dir with _ | walker
  · exact ⟨b, rfl, fun i j => rfl⟩
  · dsimp only
    split
    · apply flipPath_ok
      intro q hq
      have hw := walkPath_mem b pl.opponent.disk dir BOARD_SIZE walker
        (neighbour_is_inbound placement dir walker hn) q hq
      exact ⟨hw.2, by rw [hw.1]; rfl⟩
    · exact ⟨b, rfl, fun i j => rfl⟩

/-- The whole capture loop of `Game::result` succeeds and preserves
occupancy pointwise. -/
theorem applyDirs_ok (pl : Player) (placement : Position) :
    ∀ (dirs : List Direction) (b : Board),
    ∃ b', Game.applyDirs b pl placement dirs = .ok b'
      ∧ ∀ i j, (b'.grid i j).isSome = (b.grid i j).isSome := by
  intro dirs
  induction dirs with
  | nil => intro b; exact ⟨b, rfl, fun i j => rfl⟩
  | cons dir rest ih =>
    intro b
    obtain ⟨b1, h1, hiso1⟩ := applyDir_ok b pl placement dir
    obtain ⟨b', h2, hiso2⟩ := ih b1
    refine ⟨b', ?_, fun i j => (hiso2 i j).trans (hiso1 i j)⟩
    simp only [Game.applyDirs]
    rw [h1]
    exact h2

/-- Placing on an in-bounds empty cell succeeds, adds one occupied cell
and keeps every occupied cell occupied. -/
theorem place_ok (b : Board) (d : Disk) (pos : Position)
    (hin : pos.is_inbound) (hempty : b.disk pos = none) :
    ∃ b', b.place d pos = .ok b'
      ∧ occupiedCount b' = occupiedCount b + 1
      ∧ ∀ i j, (b.grid i j).isSome = true → (b'.grid i j).isSome = true := by
  have h8 : pos.row < BOARD_SIZE ∧ pos.col < BOARD_SIZE := hin
  refine ⟨b.set ⟨pos.row, h8.1⟩ ⟨pos.col, h8.2⟩ (some d), ?_, ?_, ?_⟩
  · unfold Board.place
    rw [dif_pos h8, hempty]
    rfl
  · apply occupiedCount_set_some
    unfold Board.disk at hempty
    rw [dif_pos h8] at hempty
    exact hempty
  · intro i j hij
    rw [grid_set_eq]
    split_ifs with h
    · rfl
    · exact hij

/-- C10.  For every game and every action drawn from its legal actions,
`result` succeeds, its board has exactly one more occupied cell, and every
cell occupied before stays occupied (flips change colour, not occupancy). -/
theorem claim_c10_theorem (g : Game) (pl : Player) (a : Action)
    (ha : a ∈ g.actions pl) :
    ∃ g', g.result a = .ok g'
      ∧ occupiedCount g'.board = occupiedCount g.board + 1
      ∧ ∀ i j, (g.board.grid i j).isSome = true → (g'.board.grid i j).isSome = true := by
  obtain ⟨hpl, hin, hempty⟩ := mem_actions g.board pl a ha
  obtain ⟨b0, hplace, hcount, hmono⟩ := place_ok g.board a.player.disk a.placement hin hempty
  obtain ⟨b1, hdirs, hiso⟩ := applyDirs_ok a.player a.placement Direction.all b0
  refine ⟨{ board := b1
            current_player := a.player.opponent
            phase := g.phase
            winner := if b1.is_over then b1.winner_value else g.winner }, ?_, ?_, ?_⟩
  · unfold Game.result
    rw [hplace]
    dsimp only
    rw [hdirs]
  · show occupiedCount b1 = _
    rw [occupiedCount_congr b0 b1 hiso, hcount]
  · intro i j hij
    show (b1.grid i j).isSome = true
    rw [hiso i j]
    exact hmono i j hij

/-- C10, witness at Bot's opening move (2,3) from the standard start. -/
theorem claim_c10_witness :
    (⟨.Bot, ⟨2, 3⟩⟩ : Action) ∈ Game.new.actions .Bot
    ∧ ∃ g', Game.new.result ⟨.Bot, ⟨2, 3⟩⟩ = .ok g'
        ∧ occupiedCount g'.board = occupiedCount Game.new.board + 1
        ∧ ∀ i j, (Game.new.board.grid i j).isSome = true
            → (g'.board.grid i j).isSome = true :=
  ⟨by decide, claim_c10_theorem Game.new .Bot ⟨.Bot, ⟨2, 3⟩⟩ (by decide)⟩

/-! ### Helper lemmas for C7 -/

/-- The disk computed for one character of `Board::parse`, when it
succeeds, is exactly the specification's character mapping. -/
theorem parse_disk_char (ch : Char) (d : Option Disk)
    (h : (if ch = EMPTY_CHAR then .ok none else (Disk.parse ch).map some :
      PResult (Option Disk)) = .ok d) :
    d = charDisk ch := by
  unfold charDisk Disk.parse at *
  split_ifs at * <;> simp_all [PResult.map]

/-- Per-cell description of one line of `Board::parse`: row `i` receives
the characters of the line from column `j` on; every other cell is
unchanged. -/
theorem parseLine_grid (cs : List Char) :
    ∀ (b : Board) (i j : Nat) (b' : Board),
      Board.parseLine b i j cs = .ok b' →
      ∀ (r c : Fin BOARD_SIZE),
        b'.grid r c =
          if (r : Nat) = i ∧ j ≤ (c : Nat) ∧ (c : Nat) < j + cs.length then
            charDisk (cs.getD ((c : Nat) - j) 'E')
          else b.grid r c := by
  induction cs with
  | nil =>
    intro b i j b' h r c
    injection h with h
    subst h
    rw [if_neg (by simp only [List.length_nil, Nat.add_zero]; omega)]
  | cons ch rest ih =>
    intro b i j b' h r c
    simp only [Board.parseLine] at h
    rcases hd : (if ch = EMPTY_CHAR then .ok none else (Disk.parse ch).map some :
        PResult (Option Disk)) with d | e | _
    · rw [hd] at h
      dsimp only at h
      by_cases hij : i < BOARD_SIZE ∧ j < BOARD_SIZE
      · rw [dif_pos hij] at h
        have hrec := ih _ i (j + 1) b' h r c
        have hcell : (b.set ⟨i, hij.1⟩ ⟨j, hij.2⟩ d).grid r c
            = if (r : Nat) = i ∧ (c : Nat) = j then d else b.grid r c := by
          rw [grid_set_eq]
          simp [Fin.ext_iff]
        rw [hrec, hcell, parse_disk_char ch d hd]
        simp only [List.length_cons]
        split_ifs with h1 h2 h3 h4 h5
        · rw [show (c : Nat) - j = ((c : Nat) - (j + 1)) + 1 from by omega,
            List.getD_cons_succ]
        · exfalso; omega
        · rw [show (c : Nat) - j = 0 from by omega, List.getD_cons_zero]
        · exfalso; omega
        · exfalso; omega
        · rfl
      · rw [dif_neg hij] at h
        exact PResult.noConfusion h
    · rw [hd] at h
      exact PResult.noConfusion h
    · rw [hd] at h
      exact PResult.noConfusion h

/-- Per-cell description of the line loop of `Board::parse`. -/
theorem parseLines_grid (ls : List (List Char)) :
    ∀ (b : Board) (i : Nat) (b' : Board),
      Board.parseLines b i ls = .ok b' →
      ∀ (r c : Fin BOARD_SIZE),
        b'.grid r c =
          if i ≤ (r : Nat) ∧ (r : Nat) - i < ls.length
              ∧ (c : Nat) < (ls.getD ((r : Nat) - i) []).length then
            charDisk ((ls.getD ((r : Nat) - i) []).getD (c : Nat) 'E')
          else b.grid r c := by
  induction ls with
  | nil =>
    intro b i b' h r c
    injection h with h
    subst h
    rw [if_neg (by simp)]
  | cons line rest ih =>
    intro b i b' h r c
    simp only [Board.parseLines] at h
    rcases hl : Board.parseLine b i 0 line with b1 | e | _
    · rw [hl] at h
      dsimp only at h
      have hrec := ih b1 (i + 1) b' h r c
      have hline := parseLine_grid line b i 0 b1 hl r c
      rw [hrec, hline]
      simp only [List.length_cons, Nat.zero_add, Nat.zero_le, true_and, Nat.sub_zero]
      rcases Nat.lt_trichotomy (r : Nat) i with hri | hri | hri
      · rw [if_neg (by omega), if_neg (by omega), if_neg (by omega)]
      · rw [show ((r : Nat) - i) = 0 from by omega, List.getD_cons_zero,
          if_neg (by omega)]
        split_ifs with h1 h2 h3
        · rfl
        · exfalso; omega
        · exfalso; omega
        · rfl
      · rw [show ((r : Nat) - i) = ((r : Nat) - (i + 1)) + 1 from by omega,
          List.getD_cons_succ,
          if_neg (show ¬((r : Nat) = i ∧ (c : Nat) < line.length) from by omega)]
        split_ifs with h1 h2 h3
        · rfl
        · exfalso; omega
        · exfalso; omega
        · rfl
    · rw [hl] at h
      exact PResult.noConfusion h
    · rw [hl] at h
      exact PResult.noConfusion h

/-- C7.  For every input text that `Board::parse` accepts, the resulting
board is `Board::new` with exactly the cells covered by the input's
characters overwritten ('E' to empty, 'D' to Dark, 'L' to Light); every
cell beyond the input's lines or line lengths keeps the standard starting
configuration. -/
theorem claim_c7_theorem (data : String) (b : Board)
    (h : Board.parse data = .ok b) (r c : Fin BOARD_SIZE) :
    b.grid r c =
      if (r : Nat) < (rustLines data).length
          ∧ (c : Nat) < ((rustLines data).getD (r : Nat) []).length then
        charDisk (((rustLines data).getD (r : Nat) []).getD (c : Nat) 'E')
      else Board.new.grid r c := by
  have := parseLines_grid (rustLines data) Board.new 0 b h r c
  simpa using this

/-- C7, witness on the two-line input `"LD\nEL"`: the covered cell (1,0)
holds the overlay value of its character 'E' (empty, erasing nothing
there), while the uncovered centre cell (3,3) keeps the starting Dark
disk. -/
theorem claim_c7_witness :
    Board.parse "LD\nEL" = .ok boardC7
    ∧ boardC7.grid ⟨1, by decide⟩ ⟨0, by decide⟩ = none
    ∧ boardC7.grid ⟨3, by decide⟩ ⟨3, by decide⟩ = some .Dark :=
  ⟨by decide,
    by
      have h1 := claim_c7_theorem "LD\nEL" boardC7 (by decide)
        ⟨1, by decide⟩ ⟨0, by decide⟩
      rw [h1]; decide,
    by
      have h2 := claim_c7_theorem "LD\nEL" boardC7 (by decide)
        ⟨3, by decide⟩ ⟨3, by decide⟩
      rw [h2]; decide⟩

end OthelloAI
